import Mathlib

/-!
Verification development for the data-to-file conversion engine of the
`error-notifier` alerting library (source: `src/index.ts`, class `FileCreator`).

JavaScript strings are modelled as `List Char`; JavaScript runtime values are
modelled by the inductive type `JSValue` below.  Platform built-ins used by the
source (`String.prototype.trim`, `String.prototype.split`, `Array.prototype.join`,
`JSON.stringify`, `JSON.parse`, `String(...)` coercion) are modelled by
executable Lean functions with the same observable behaviour on the fragment of
values the library manipulates (integers stand in for JS numbers).
-/

abbrev Str := List Char

/-- Shorthand turning a Lean string literal into the `List Char` model. -/
def js (s : String) : Str := s.data

/-- Model of `Number`/integer rendering, as in `String(1) = "1"`. -/
def natStr (n : Nat) : Str := (Nat.repr n).data

/-- Model of JS integer-valued number rendering, including the minus sign. -/
def intStr (n : Int) : Str := (toString n).data

/-- Model of `String.prototype.split(sep)` (single-character separator):
`jsSplitAux sep remaining currentField`. -/
def jsSplitAux (sep : Char) : List Char → List Char → List (List Char)
  | [], cur => [cur]
  | c :: rest, cur =>
      if c = sep then cur :: jsSplitAux sep rest []
      else jsSplitAux sep rest (cur ++ [c])

/-- Model of `s.split(sep)`; note `"".split(sep) = [""]` as in JS. -/
def jsSplit (sep : Char) (s : Str) : List Str := jsSplitAux sep s []

/-- Model of `String.prototype.trim`: strip leading and trailing whitespace. -/
def jsTrim (s : Str) : Str :=
  ((s.dropWhile Char.isWhitespace).reverse.dropWhile Char.isWhitespace).reverse

/-- Model of `Array.prototype.join(sep)` (single-character separator). -/
def joinWith (x : Char) : List Str → Str
  | [] => []
  | [l] => l
  | l :: ls => l ++ x :: joinWith x ls

/-!
## CSV line parsing (`parseCsvLine`, src/index.ts lines 363-396)

The source walks the line once with an `inQuotes` flag: a doubled `""` inside
quotes emits a literal quote, an unescaped `"` toggles the flag, a `,` outside
quotes ends the field, and any other character is appended to the current field.
-/

def parseCsvLineAux : List Char → Bool → List Char → List (List Char)
  | [], _, cur => [cur]
  | '"' :: '"' :: rest2, true, cur => parseCsvLineAux rest2 true (cur ++ ['"'])
  | '"' :: rest, true, cur => parseCsvLineAux rest false cur
  | '"' :: rest, false, cur => parseCsvLineAux rest true cur
  | ',' :: rest, false, cur => cur :: parseCsvLineAux rest false []
  | c :: rest, q, cur => parseCsvLineAux rest q (cur ++ [c])

/-- `parseCsvLine` from the source: split one CSV line into fields. -/
def parseCsvLine (line : Str) : List Str := parseCsvLineAux line false []

/-!
## CSV field escaping (inlined in `createCsvFile`, src/index.ts lines 518-520 and 563-565)

`stringValue.replace(/"/g, '""')` wrapped in quotes, applied whenever the field
contains a comma, a double quote, or a newline.
-/

/-- Model of `stringValue.replace(/"/g, '""')`. -/
def doubleQuotes : Str → Str
  | [] => []
  | '"' :: rest => '"' :: '"' :: doubleQuotes rest
  | c :: rest => c :: doubleQuotes rest

/-- The escape-trigger test `includes(',') || includes('"') || includes('\n')`. -/
def needsEscape (s : Str) : Bool :=
  decide (',' ∈ s) || decide ('"' ∈ s) || decide ('\n' ∈ s)

/-- Quote-wrap with internal quotes doubled. -/
def escapeCsvField (s : Str) : Str := '"' :: doubleQuotes s ++ ['"']

/-- One serialized CSV cell, given the already-stringified value. -/
def csvCell (s : Str) : Str := if needsEscape s then escapeCsvField s else s

/-!
## The JavaScript value model

`verr` models an `Error` instance (`instanceof Error`); its `message`/`stack`
own properties are non-enumerable in V8, so it has no enumerable keys.
`vnum` models the (integer) numbers appearing in the library's data.
-/

inductive JSValue where
  | vnull
  | vbool (b : Bool)
  | vnum (n : Int)
  | vstr (s : Str)
  | varr (xs : List JSValue)
  | vobj (fields : List (Str × JSValue))
  | verr (message : Str) (stack : Option Str)

open JSValue

/-- `typeof v === 'object'` (true for objects, arrays, `null` and `Error`s). -/
def typeofObject : JSValue → Bool
  | vobj _ => true
  | varr _ => true
  | vnull => true
  | verr _ _ => true
  | _ => false

/-- `typeof v === 'object' && !Array.isArray(v)` — the test applied to `data[0]`
in `createCsvFile` (line 499). -/
def isObjectNotArray : JSValue → Bool
  | vobj _ => true
  | vnull => true
  | verr _ _ => true
  | _ => false

/-- `typeof v === 'object' && v !== null && !Array.isArray(v)` — the recursion
test of `flattenObject` (line 608). -/
def isNestedObject : JSValue → Bool
  | vobj _ => true
  | verr _ _ => true
  | _ => false

/-- JS object property read `fields[key]`: first matching key (object field
names are unique in JS). `none` models `undefined`. -/
def lookupField : List (Str × JSValue) → Str → Option JSValue
  | [], _ => none
  | (k, v) :: rest, key => if k = key then some v else lookupField rest key

/-- JS object property write `obj[key] = v`: update in place if the key exists
(keeping its position, as JS insertion order does), else append. -/
def setKey : List (Str × JSValue) → Str → JSValue → List (Str × JSValue)
  | [], key, v => [(key, v)]
  | (k, w) :: rest, key, v =>
      if k = key then (k, v) :: rest else (k, w) :: setKey rest key v

/-- Canonical-decimal array index decoding: `xs["2"]` hits element 2, while
`xs["02"]` or `xs["x"]` are `undefined`.  `xs["length"]` is the length. -/
def arrIndex (xs : List JSValue) (key : Str) : Option JSValue :=
  if key = js "length" then some (vnum xs.length)
  else (List.range xs.length).findSome?
    (fun i => if natStr i = key then xs.get? i else none)

/-- Property read on an `Error` instance: `message` and `stack`. -/
def errField (message : Str) (stack : Option Str) (key : Str) : Option JSValue :=
  if key = js "message" then some (vstr message)
  else if key = js "stack" then stack.map vstr
  else none

/-- Own enumerable properties, as enumerated by `for...in` and object spread:
object fields in insertion order; array elements under their decimal index
keys; string characters under their index keys; nothing for primitives,
`null`, or `Error` instances. -/
def enumProps : JSValue → List (Str × JSValue)
  | vobj fs => fs
  | varr xs => xs.enum.map (fun p => (natStr p.1, p.2))
  | vstr s => s.enum.map (fun p => (natStr p.1, vstr [p.2]))
  | _ => []

/-!
## `getNestedValue` (src/index.ts lines 623-635)

Tokenize the path on `.` and descend; bail out with `undefined` as soon as the
current value is `null`, `undefined` or not of object type.
-/

def getNestedGo : List Str → Option JSValue → Option JSValue
  | [], cur => cur
  | _ :: _, none => none
  | key :: keys, some v =>
      match v with
      | vobj fs => getNestedGo keys (lookupField fs key)
      | varr xs => getNestedGo keys (arrIndex xs key)
      | verr m st => getNestedGo keys (errField m st key)
      | _ => none

/-- `getNestedValue(obj, path)` from the source. -/
def getNestedValue (v : JSValue) (path : Str) : Option JSValue :=
  getNestedGo (jsSplit '.' path) (some v)

/-!
## `flattenObject` (src/index.ts lines 601-618)

Recursively walks the enumerable keys; a key whose value is again a plain
object (not `null`, not an array) is expanded into `parent.child` dot paths.
-/

/-- `prefix ? prefix + '.' + key : key` from the source (empty string is falsy). -/
def mkKey (pre k : Str) : Str := if pre = [] then k else pre ++ '.' :: k

mutual
def flattenObject : JSValue → Str → List Str
  | vobj fs, pre => flattenFields fs pre
  | varr xs, pre => flattenElems xs 0 pre
  | vstr s, pre => (List.range s.length).map (fun i => mkKey pre (natStr i))
  | _, _ => []
def flattenFields : List (Str × JSValue) → Str → List Str
  | [], _ => []
  | (k, x) :: rest, pre =>
      (if isNestedObject x then flattenObject x (mkKey pre k) else [mkKey pre k])
        ++ flattenFields rest pre
def flattenElems : List JSValue → Nat → Str → List Str
  | [], _, _ => []
  | x :: rest, i, pre =>
      (if isNestedObject x then flattenObject x (mkKey pre (natStr i))
       else [mkKey pre (natStr i)]) ++ flattenElems rest (i + 1) pre
end

/-- `Set`-style insertion used by `extractHeadersFromObjects`. -/
def insertDedup (acc : List Str) (k : Str) : List Str :=
  if k ∈ acc then acc else acc ++ [k]

/-- `extractHeadersFromObjects` (src/index.ts lines 586-596): union of all
flattened keys across the rows, first-seen order, deduplicated. -/
def extractHeadersFromObjects (objects : List JSValue) : List Str :=
  objects.foldl (fun acc obj => (flattenObject obj []).foldl insertDedup acc) []

/-!
## `JSON.stringify` model

`jsonStringifyC` is the compact form (`JSON.stringify(v)`, used for nested
values inside CSV cells); `stringifyPretty` is `JSON.stringify(v, null, 2)`
(2-space indent), used for txt and json file bodies.  `Error` instances have
no enumerable own properties, so they serialize to an empty object.
-/

/-- JSON string-literal escaping for the characters the library manipulates. -/
def jsonEscape : Str → Str
  | [] => []
  | '"' :: rest => '\\' :: '"' :: jsonEscape rest
  | '\\' :: rest => '\\' :: '\\' :: jsonEscape rest
  | '\n' :: rest => '\\' :: 'n' :: jsonEscape rest
  | '\r' :: rest => '\\' :: 'r' :: jsonEscape rest
  | '\t' :: rest => '\\' :: 't' :: jsonEscape rest
  | c :: rest => c :: jsonEscape rest

def jsonQuote (s : Str) : Str := '"' :: jsonEscape s ++ ['"']

mutual
def jsonStringifyC : JSValue → Str
  | vnull => js "null"
  | vbool b => if b then js "true" else js "false"
  | vnum n => intStr n
  | vstr s => jsonQuote s
  | varr xs => '[' :: jsonStringifyElems xs ++ [']']
  | vobj fs => '\x7b' :: jsonStringifyFields fs ++ ['\x7d']
  | verr _ _ => js "\x7b\x7d"
def jsonStringifyElems : List JSValue → Str
  | [] => []
  | [x] => jsonStringifyC x
  | x :: xs => jsonStringifyC x ++ ',' :: jsonStringifyElems xs
def jsonStringifyFields : List (Str × JSValue) → Str
  | [] => []
  | [(k, v)] => jsonQuote k ++ ':' :: jsonStringifyC v
  | (k, v) :: fs => (jsonQuote k ++ ':' :: jsonStringifyC v) ++ ',' :: jsonStringifyFields fs
end

/-- `n` spaces, for the pretty printer's indentation. -/
def spaces (n : Nat) : Str := List.replicate n ' '

mutual
def stringifyPretty : Nat → JSValue → Str
  | _, vnull => js "null"
  | _, vbool b => if b then js "true" else js "false"
  | _, vnum n => intStr n
  | _, vstr s => jsonQuote s
  | _, varr [] => js "[]"
  | ind, varr (x :: xs) =>
      '[' :: '\n' :: prettyElems ind (x :: xs) ++ '\n' :: spaces ind ++ [']']
  | _, vobj [] => js "\x7b\x7d"
  | ind, vobj (f :: fs) =>
      '\x7b' :: '\n' :: prettyFields ind (f :: fs) ++ '\n' :: spaces ind ++ ['\x7d']
  | _, verr _ _ => js "\x7b\x7d"
def prettyElems : Nat → List JSValue → Str
  | _, [] => []
  | ind, [x] => spaces (ind + 2) ++ stringifyPretty (ind + 2) x
  | ind, x :: xs =>
      (spaces (ind + 2) ++ stringifyPretty (ind + 2) x) ++ ',' :: '\n' :: prettyElems ind xs
def prettyFields : Nat → List (Str × JSValue) → Str
  | _, [] => []
  | ind, [(k, v)] =>
      spaces (ind + 2) ++ jsonQuote k ++ ':' :: ' ' :: stringifyPretty (ind + 2) v
  | ind, (k, v) :: fs =>
      (spaces (ind + 2) ++ jsonQuote k ++ ':' :: ' ' :: stringifyPretty (ind + 2) v)
        ++ ',' :: '\n' :: prettyFields ind fs
end

/-!
## `String(value)` coercion
-/

mutual
def jsToString : JSValue → Str
  | vnull => js "null"
  | vbool b => if b then js "true" else js "false"
  | vnum n => intStr n
  | vstr s => s
  | varr xs => jsToStringElems xs
  | vobj _ => js "[object Object]"
  | verr m _ => js "Error: " ++ m
def jsToStringElems : List JSValue → Str
  | [] => []
  | [x] => (match x with | vnull => [] | y => jsToString y)
  | x :: xs => (match x with | vnull => [] | y => jsToString y) ++ ',' :: jsToStringElems xs
end

/-!
## `JSON.parse` model

A fuel-indexed recursive-descent parser for the JSON fragment the model
covers (null, booleans, integer numbers, strings with the escapes of
`jsonEscape`, arrays, objects); surrounding whitespace is skipped and
trailing garbage is rejected, as `JSON.parse` does.  `none` models a thrown
`SyntaxError`.
-/

def skipWs (s : Str) : Str := s.dropWhile (fun c => c = ' ' || c = '\t' || c = '\n' || c = '\r')

def parseJsonString : Nat → Str → Option (Str × Str)
  | 0, _ => none
  | _ + 1, [] => none
  | _ + 1, '"' :: rest => some ([], rest)
  | fuel + 1, '\\' :: c :: rest =>
      match parseJsonString fuel rest with
      | none => none
      | some (s, rem) =>
          if c = '"' then some ('"' :: s, rem)
          else if c = '\\' then some ('\\' :: s, rem)
          else if c = '/' then some ('/' :: s, rem)
          else if c = 'n' then some ('\n' :: s, rem)
          else if c = 't' then some ('\t' :: s, rem)
          else if c = 'r' then some ('\r' :: s, rem)
          else none
  | fuel + 1, c :: rest =>
      match parseJsonString fuel rest with
      | none => none
      | some (s, rem) => some (c :: s, rem)

def parseJsonNat (s : Str) : Option (Nat × Str) :=
  let digits := s.takeWhile Char.isDigit
  if digits = [] then none
  else some (digits.foldl (fun n c => n * 10 + (c.toNat - '0'.toNat)) 0,
             s.dropWhile Char.isDigit)

mutual
def parseJsonValue : Nat → Str → Option (JSValue × Str)
  | 0, _ => none
  | fuel + 1, s =>
      match skipWs s with
      | 'n' :: 'u' :: 'l' :: 'l' :: rest => some (vnull, rest)
      | 't' :: 'r' :: 'u' :: 'e' :: rest => some (vbool true, rest)
      | 'f' :: 'a' :: 'l' :: 's' :: 'e' :: rest => some (vbool false, rest)
      | '"' :: rest =>
          (parseJsonString (fuel + 1) rest).map (fun p => (vstr p.1, p.2))
      | '[' :: rest =>
          (match skipWs rest with
           | ']' :: rem => some (varr [], rem)
           | _ => (parseJsonElems fuel rest).map (fun p => (varr p.1, p.2)))
      | '\x7b' :: rest =>
          (match skipWs rest with
           | '\x7d' :: rem => some (vobj [], rem)
           | _ => (parseJsonMembers fuel rest).map (fun p => (vobj p.1, p.2)))
      | '-' :: rest =>
          (parseJsonNat rest).map (fun p => (vnum (-(p.1 : Int)), p.2))
      | other => (parseJsonNat other).map (fun p => (vnum (p.1 : Int), p.2))
def parseJsonElems : Nat → Str → Option (List JSValue × Str)
  | 0, _ => none
  | fuel + 1, s =>
      match parseJsonValue fuel s with
      | none => none
      | some (v, rest) =>
          match skipWs rest with
          | ',' :: rest2 =>
              (parseJsonElems fuel rest2).map (fun p => (v :: p.1, p.2))
          | ']' :: rest2 => some ([v], rest2)
          | _ => none
def parseJsonMembers : Nat → Str → Option (List (Str × JSValue) × Str)
  | 0, _ => none
  | fuel + 1, s =>
      match skipWs s with
      | '"' :: rest =>
          match parseJsonString (fuel + 1) rest with
          | none => none
          | some (k, rest2) =>
              match skipWs rest2 with
              | ':' :: rest3 =>
                  match parseJsonValue fuel rest3 with
                  | none => none
                  | some (v, rest4) =>
                      match skipWs rest4 with
                      | ',' :: rest5 =>
                          (parseJsonMembers fuel rest5).map (fun p => ((k, v) :: p.1, p.2))
                      | '\x7d' :: rest5 => some ([(k, v)], rest5)
                      | _ => none
              | _ => none
      | _ => none
end

/-- `JSON.parse(s)`: `none` models a thrown `SyntaxError`. -/
def jsonParse (s : Str) : Option JSValue :=
  match parseJsonValue (s.length + 1) s with
  | none => none
  | some (v, rest) => if skipWs rest = [] then some v else none

/-!
## `parseCsvData` (src/index.ts lines 321-355)
-/

/-- The `headers.forEach((header, index) => obj[header] = values[index] || '')`
loop: walk the headers, popping one positional value each step (missing or
empty positions become the empty string). -/
def buildRow : List (Str × JSValue) → List Str → List Str → List (Str × JSValue)
  | acc, [], _ => acc
  | acc, h :: hs, vals => buildRow (setKey acc h (vstr (vals.headD []))) hs vals.tail

def parseCsvData (csvString : Str) (headers : Option (List Str)) : List JSValue :=
  let lines := jsSplit '\n' (jsTrim csvString)
  if lines = [] then []
  else
    match headers with
    | some hs => lines.map (fun line => vobj (buildRow [] hs (parseCsvLine line)))
    | none =>
        match lines with
        | [] => []
        | first :: rest =>
            let firstLineHeaders := parseCsvLine first
            rest.map (fun line => vobj (buildRow [] firstLineHeaders (parseCsvLine line)))

/-!
## `parseTextData` (src/index.ts lines 401-430)

The impure `new Date().toISOString()` is passed in as the `now` argument.
-/

def parseTextData (now : Str) (text : JSValue) : JSValue :=
  match text with
  | vstr s =>
      let cleanedText := jsTrim s
      let lines := jsSplit '\n' cleanedText
      if 1 < lines.length then
        varr (lines.enum.map (fun p =>
          vobj [(js "lineNumber", vnum ((p.1 : Int) + 1)),
                (js "content", vstr (jsTrim p.2)),
                (js "characterCount", vnum (p.2.length : Int))]))
      else
        vobj [(js "content", vstr cleanedText),
              (js "timestamp", vstr now),
              (js "length", vnum (cleanedText.length : Int))]
  | other =>
      vobj [(js "content", vstr (jsToString other)),
            (js "timestamp", vstr now)]

/-!
## `createTextFile` (src/index.ts lines 435-449): the byte content written.
-/

def createTextFile (data : JSValue) : Str :=
  match data with
  | vstr s => s
  | verr m st =>
      js "ERROR: " ++ m ++ js "\n\nSTACK TRACE:\n" ++
        (match st with
         | some s => if s = [] then js "No stack trace" else s
         | none => js "No stack trace")
  | vobj _ | varr _ | vnull => stringifyPretty 0 data
  | other => jsToString other

/-!
## `createJsonFile` (src/index.ts lines 454-487)

`createJsonValue` is the `finalData` value built by the source
(`{...jsonData, _metadata: {...}}`); the file content is its pretty JSON.
A missing `Error.stack` is modelled as `null` (the source leaves the field
`undefined`, which `JSON.stringify` then omits).
-/

def metadataValue (now : Str) : JSValue :=
  vobj [(js "generatedAt", vstr now),
        (js "source", vstr (js "error-notifier")),
        (js "format", vstr (js "json"))]

def createJsonValue (now : Str) (data : JSValue) : JSValue :=
  let jsonData : JSValue :=
    match data with
    | vstr s =>
        (match jsonParse s with
         | some v => v
         | none => vobj [(js "content", vstr s), (js "timestamp", vstr now)])
    | verr m st =>
        vobj [(js "error", vstr m),
              (js "stack", match st with | some t => vstr t | none => vnull),
              (js "timestamp", vstr now),
              (js "type", vstr (js "Error"))]
    | other => other
  vobj (setKey (enumProps jsonData) (js "_metadata") (metadataValue now))

def createJsonFile (now : Str) (data : JSValue) : Str :=
  stringifyPretty 0 (createJsonValue now data)

/-!
## `createCsvFile` (src/index.ts lines 492-581): the byte content written.

`Object.keys(null)` throws a `TypeError`, so the result is `Except`.
-/

inductive JsErr where
  | typeError (msg : Str)
  deriving DecidableEq

instance : DecidableEq (Except JsErr Str) := fun a b =>
  match a, b with
  | .ok x, .ok y => if h : x = y then .isTrue (by rw [h]) else .isFalse (by simp [h])
  | .error x, .error y => if h : x = y then .isTrue (by rw [h]) else .isFalse (by simp [h])
  | .ok _, .error _ => .isFalse (by simp)
  | .error _, .ok _ => .isFalse (by simp)

/-- One cell of an object row: `null`/`undefined` become the empty field,
object-typed values are JSON-stringified, everything else is `String(...)`
coerced; then comma/quote/newline triggers quote-escaping. -/
def csvCellOfValue (v : Option JSValue) : Str :=
  match v with
  | none => []
  | some vnull => []
  | some w => csvCell (if typeofObject w then jsonStringifyC w else jsToString w)

/-- One data line of the object-rows branch: resolve every header by dot-path
lookup and comma-join the escaped cells. -/
def objRowLine (hs : List Str) (v : JSValue) : Str :=
  joinWith ',' (hs.map (fun h => csvCellOfValue (getNestedValue v h)))

def createCsvFile (data : JSValue) (headers : Option (List Str)) : Except JsErr Str :=
  match data with
  | varr [] => .ok (js "No data")
  | varr (x :: xs) =>
      if isObjectNotArray x then
        let allHeaders :=
          match headers with
          | some hs => hs
          | none => extractHeadersFromObjects (x :: xs)
        .ok (joinWith ',' allHeaders ++ '\n' ::
              ((x :: xs).map (fun it => objRowLine allHeaders it ++ ['\n'])).flatten)
      else
        let headerPart :=
          match headers with
          | some hs => joinWith ',' hs ++ ['\n']
          | none => []
        .ok (headerPart ++
              ((x :: xs).map (fun row =>
                 match row with
                 | varr cells =>
                     joinWith ',' (cells.map (fun c => csvCell (jsToString c))) ++ ['\n']
                 | other => jsToString other ++ ['\n'])).flatten)
  | vobj _ | vnull | verr _ _ =>
      let keysOpt : Option (List Str) :=
        match headers with
        | some hs => some hs
        | none =>
            match data with
            | vobj fs => some (fs.map Prod.fst)
            | verr _ _ => some []
            | _ => none
      match keysOpt with
      | none => .error (.typeError (js "Cannot convert undefined or null to object"))
      | some allHeaders =>
          .ok (joinWith ',' allHeaders ++ '\n' :: objRowLine allHeaders data ++ ['\n'])
  | other =>
      let sv := jsToString other
      match headers with
      | some hs => .ok (joinWith ',' hs ++ '\n' :: sv ++ ['\n'])
      | none => .ok (js "Value" ++ '\n' :: sv ++ ['\n'])

/-!
## Option validation (src/index.ts lines 206-237) and output naming (157-186)

`FileOptions` models the options bag; at runtime the format tags are arbitrary
strings (`validateOptions` takes `options: any`), so they are `Option Str`.
The JS truthiness tests `!!options.x` make an empty-string tag count as absent.
-/

structure FileOptions where
  fileName : Option Str := none
  fileType : Option Str := none
  fromFmt : Option Str := none
  toFmt : Option Str := none
  csvHeaders : Option (List Str) := none

def truthyStr : Option Str → Bool
  | none => false
  | some s => !s.isEmpty

def validFormats : List Str := [js "txt", js "json", js "csv"]

inductive ConfigError where
  | bothModes
  | pairRequired
  | invalidFileType (tag : Str)
  | invalidFrom (tag : Str)
  | invalidTo (tag : Str)
  | sameFormat (tag : Str)
  deriving DecidableEq

/-- `validateOptions` from the source, check for check in source order;
`none` means the options validate successfully, `some e` models the thrown
`ConfigurationError`, with the constructor remembering which message (and
which offending tag, for the messages that name one) was used. -/
def validateOptions (o : FileOptions) : Option ConfigError :=
  let hasFileType := truthyStr o.fileType
  let hasFrom := truthyStr o.fromFmt
  let hasTo := truthyStr o.toFmt
  if hasFileType && (hasFrom || hasTo) then some .bothModes
  else if (hasFrom && !hasTo) || (!hasFrom && hasTo) then some .pairRequired
  else if hasFileType && !(validFormats.contains (o.fileType.getD [])) then
    some (.invalidFileType (o.fileType.getD []))
  else if hasFrom && !(validFormats.contains (o.fromFmt.getD [])) then
    some (.invalidFrom (o.fromFmt.getD []))
  else if hasTo && !(validFormats.contains (o.toFmt.getD [])) then
    some (.invalidTo (o.toFmt.getD []))
  else if hasFrom && hasTo && (o.fromFmt.getD [] == o.toFmt.getD []) then
    some (.sameFormat (o.fromFmt.getD []))
  else none

/-- Output format resolution (src/index.ts lines 160-175): conversion mode
wins, then the explicit tag, else the `txt` default. -/
def resolveOutputFormat (o : FileOptions) : Str :=
  if truthyStr o.fromFmt && truthyStr o.toFmt then o.toFmt.getD []
  else if truthyStr o.fileType then o.fileType.getD []
  else js "txt"

def hexDigitChar (n : Nat) : Char := (js "0123456789abcdef").getD n '0'

/-- `crypto.randomBytes(4).toString('hex')`: two lowercase hex digits per byte. -/
def bytesToHex (bytes : List Nat) : Str :=
  (bytes.map (fun b => [hexDigitChar (b % 256 / 16), hexDigitChar (b % 256 % 16)])).flatten

def generatedFileName (timestampMs : Nat) (randomBytes : List Nat) (fmt : Str) : Str :=
  js "alert-" ++ natStr timestampMs ++ js "-" ++ bytesToHex randomBytes ++ '.' :: fmt

/-- Filename resolution (src/index.ts lines 177-186).  The impure timestamp
(`new Date().getTime()`) and random bytes are passed in as arguments. -/
def resolveFileName (o : FileOptions) (timestampMs : Nat) (randomBytes : List Nat) : Str :=
  let fmt := resolveOutputFormat o
  match o.fileName with
  | none => generatedFileName timestampMs randomBytes fmt
  | some n =>
      if n.isEmpty then generatedFileName timestampMs randomBytes fmt
      else if '.' ∈ n then n
      else n ++ '.' :: fmt

/-!
## Specification-side definition for the validation rules

`specValidateOptions` transcribes the specification's §4.1 rule list (the four
numbered rules of claim C4, checked in that order, first violation winning)
independently of the source's control flow, for comparison with
`validateOptions`.  "Given" is read as the spec reads it: a tag that is
supplied and non-empty.
-/

/-- A format tag counts as given when it is supplied and non-empty. -/
def tagGiven (t : Option Str) : Prop := t.getD [] ≠ []

instance (t : Option Str) : Decidable (tagGiven t) := by unfold tagGiven; infer_instance

def specValidateOptions (o : FileOptions) : Option ConfigError :=
  if tagGiven o.fileType ∧ (tagGiven o.fromFmt ∨ tagGiven o.toFmt) then some .bothModes
  else if (tagGiven o.fromFmt ∧ ¬tagGiven o.toFmt) ∨ (¬tagGiven o.fromFmt ∧ tagGiven o.toFmt) then
    some .pairRequired
  else if tagGiven o.fileType ∧ o.fileType.getD [] ∉ validFormats then
    some (.invalidFileType (o.fileType.getD []))
  else if tagGiven o.fromFmt ∧ o.fromFmt.getD [] ∉ validFormats then
    some (.invalidFrom (o.fromFmt.getD []))
  else if tagGiven o.toFmt ∧ o.toFmt.getD [] ∉ validFormats then
    some (.invalidTo (o.toFmt.getD []))
  else if tagGiven o.fromFmt ∧ tagGiven o.toFmt ∧ o.fromFmt.getD [] = o.toFmt.getD [] then
    some (.sameFormat (o.fromFmt.getD []))
  else none

/-!
## Supporting lemmas
-/

theorem truthyStr_eq_true (t : Option Str) : truthyStr t = true ↔ tagGiven t := by
  cases t with
  | none => simp [truthyStr, tagGiven]
  | some s => simp [truthyStr, tagGiven, List.isEmpty_iff]

theorem lookupField_setKey_self (fs : List (Str × JSValue)) (k : Str) (v : JSValue) :
    lookupField (setKey fs k v) k = some v := by
  induction fs with
  | nil => simp [setKey, lookupField]
  | cons p rest ih =>
    obtain ⟨k', v'⟩ := p
    by_cases h : k' = k
    · subst h; simp [setKey, lookupField]
    · simp [setKey, lookupField, h, ih]

theorem lookupField_setKey_ne (fs : List (Str × JSValue)) (k k' : Str) (v : JSValue)
    (h : k' ≠ k) : lookupField (setKey fs k v) k' = lookupField fs k' := by
  induction fs with
  | nil =>
    have hne : ¬(k = k') := fun hh => h (Eq.symm hh)
    simp [setKey, lookupField, hne]
  | cons p rest ih =>
    obtain ⟨k0, v0⟩ := p
    by_cases h0 : k0 = k
    · subst h0
      have hne : ¬(k0 = k') := fun hh => h (Eq.symm hh)
      simp [setKey, lookupField, hne]
    · simp [setKey, lookupField, h0, ih]

/-- Scanner step: inside quotes, any non-quote character is appended. -/
theorem parseCsvLineAux_true_step (c : Char) (hq : c ≠ '"') (rest cur) :
    parseCsvLineAux (c :: rest) true cur = parseCsvLineAux rest true (cur ++ [c]) :=
  parseCsvLineAux.eq_6 true cur c rest
    (fun _ hc _ _ => hq hc) (fun hc _ => hq hc) (fun hc _ => hq hc)
    (fun _ hb => Bool.noConfusion hb)

/-- Scanner step: outside quotes, a non-quote non-comma character is appended. -/
theorem parseCsvLineAux_false_step (c : Char) (hq : c ≠ '"') (hc : c ≠ ',') (rest cur) :
    parseCsvLineAux (c :: rest) false cur = parseCsvLineAux rest false (cur ++ [c]) :=
  parseCsvLineAux.eq_6 false cur c rest
    (fun _ h _ _ => hq h) (fun h _ => hq h) (fun h _ => hq h) (fun h _ => hc h)

/-- Scanning the quote-doubled text of `s` inside quotes, up to the closing
quote, recovers `s` appended to the current field. -/
theorem parseCsvLineAux_doubled (s : Str) :
    ∀ cur, parseCsvLineAux (doubleQuotes s ++ ['"']) true cur = [cur ++ s] := by
  induction s with
  | nil => intro cur; simp [doubleQuotes, parseCsvLineAux]
  | cons c t ih =>
    intro cur
    by_cases hq : c = '"'
    · subst hq
      simp only [doubleQuotes, List.cons_append, parseCsvLineAux, List.append_eq]
      rw [ih]
      simp
    · rw [doubleQuotes.eq_3 c t (fun h => hq h), List.cons_append,
        parseCsvLineAux_true_step c hq, ih]
      simp

/-- The quote-escaped form of any string parses back as that single field. -/
theorem parseCsvLine_escape (s : Str) : parseCsvLine (escapeCsvField s) = [s] := by
  show parseCsvLineAux ('"' :: (doubleQuotes s ++ ['"'])) false [] = [s]
  rw [parseCsvLineAux.eq_4, parseCsvLineAux_doubled]
  simp

/-!
## Claim theorems
-/

/-- Claim C1 (counterexample): serializing the bare value `\x7ba:1, b:\x7bc:2, d:3\x7d\x7d`
to CSV with no explicit header list does NOT yield the header line `a,b.c,b.d`
with data row `1,2,3` — the single-object branch uses the object's own
top-level keys, not flattened dot paths. -/
theorem claimC1_counterexample :
    createCsvFile (vobj [(js "a", vnum 1), (js "b", vobj [(js "c", vnum 2), (js "d", vnum 3)])]) none
      ≠ .ok (js "a,b.c,b.d\n1,2,3\n") := by decide

/-- Claim C1 (amended): the one-element sequence `[\x7ba:1, b:\x7bc:2, d:3\x7d\x7d]` serializes
with flattened dot-notation headers `a,b.c,b.d` and data row `1,2,3`, while the
bare object serializes under its top-level keys `a,b` with the nested object
JSON-stringified into one quoted, quote-doubled cell. -/
theorem claimC1_thm :
    createCsvFile (varr [vobj [(js "a", vnum 1), (js "b", vobj [(js "c", vnum 2), (js "d", vnum 3)])]]) none
      = .ok (js "a,b.c,b.d\n1,2,3\n")
    ∧ createCsvFile (vobj [(js "a", vnum 1), (js "b", vobj [(js "c", vnum 2), (js "d", vnum 3)])]) none
      = .ok (js "a,b\n1,\"\x7b\"\"c\"\":2,\"\"d\"\":3\x7d\"\n") :=
  ⟨by decide, by decide⟩

/-- Claim C2: for every field value containing a comma, a double quote, or a
newline, CSV serialization wraps the field in double quotes with internal
quotes doubled, and parsing that serialized field back with the quoted-field
grammar (`parseCsvLine`) recovers the original string exactly. -/
theorem claimC2_thm (s : Str) (h : needsEscape s = true) :
    csvCell s = '"' :: doubleQuotes s ++ ['"'] ∧ parseCsvLine (csvCell s) = [s] := by
  constructor
  · simp [csvCell, h, escapeCsvField]
  · have : csvCell s = escapeCsvField s := by simp [csvCell, h]
    rw [this, parseCsvLine_escape]

/-- Claim C2 witness: the round trip at the concrete field `a,"b<newline>c`. -/
theorem claimC2_witness :
    needsEscape (js "a,\"b\nc") = true
    ∧ parseCsvLine (csvCell (js "a,\"b\nc")) = [js "a,\"b\nc"] :=
  ⟨by decide, (claimC2_thm (js "a,\"b\nc") (by decide)).2⟩

/-- Claim C5 (code bug evaluation): parsing the empty CSV string with the
explicit header list `["a"]` yields a one-row table `[\x7ba: ""\x7d]`, not the empty
table; with auto-detected headers it does yield the empty table. -/
theorem claimC5_thm :
    parseCsvData (js "") (some [js "a"]) = [vobj [(js "a", vstr [])]]
    ∧ parseCsvData (js "") none = [] :=
  ⟨rfl, rfl⟩

/-- Claim C8 (counterexample): a plain object carrying `message` and `stack`
fields — error-like in the claim's duck-typed sense — does NOT render as the
`ERROR:`/`STACK TRACE:` text; it falls to the pretty-JSON branch. -/
theorem claimC8_counterexample :
    createTextFile (vobj [(js "message", vstr (js "boom")), (js "stack", vstr (js "st"))])
      = js "\x7b\n  \"message\": \"boom\",\n  \"stack\": \"st\"\n\x7d"
    ∧ createTextFile (vobj [(js "message", vstr (js "boom")), (js "stack", vstr (js "st"))])
      ≠ js "ERROR: boom\n\nSTACK TRACE:\nst" :=
  ⟨by decide, by decide⟩

/-- Claim C8 (amended): txt serialization renders an `Error` instance as
`ERROR: <message>`, a blank line, `STACK TRACE:`, and the stack (or the
placeholder when the stack is absent); a string passes through verbatim; a
plain object or array renders as pretty JSON with 2-space indentation. -/
theorem claimC8_thm :
    (∀ m s, s ≠ [] →
        createTextFile (verr m (some s)) = js "ERROR: " ++ m ++ js "\n\nSTACK TRACE:\n" ++ s)
    ∧ (∀ m, createTextFile (verr m none)
        = js "ERROR: " ++ m ++ js "\n\nSTACK TRACE:\n" ++ js "No stack trace")
    ∧ (∀ s, createTextFile (vstr s) = s)
    ∧ (∀ fs, createTextFile (vobj fs) = stringifyPretty 0 (vobj fs))
    ∧ (∀ xs, createTextFile (varr xs) = stringifyPretty 0 (varr xs)) := by
  refine ⟨fun m s hs => ?_, fun m => rfl, fun s => rfl, fun fs => rfl, fun xs => rfl⟩
  simp [createTextFile, hs]

/-- Claim C8 witness: the amended rendering at a concrete `Error` instance. -/
theorem claimC8_witness :
    js "st" ≠ []
    ∧ createTextFile (verr (js "boom") (some (js "st"))) = js "ERROR: boom\n\nSTACK TRACE:\nst" :=
  ⟨by decide, claimC8_thm.1 (js "boom") (js "st") (by decide)⟩

/-- Claim C10: serializing `null` to CSV with no explicit header list throws a
`TypeError` (from `Object.keys(null)`) instead of producing content, while the
same `null` with explicit headers `["a","b"]` produces the header line plus one
row of entirely empty fields. -/
theorem claimC10_thm :
    createCsvFile vnull none
      = .error (.typeError (js "Cannot convert undefined or null to object"))
    ∧ createCsvFile vnull (some [js "a", js "b"]) = .ok (js "a,b\n,\n") :=
  ⟨by decide, by decide⟩

/-- Claim C6: for every already-trimmed input string with more than one line,
txt-source parsing yields the ordered sequence of records with 1-based
`lineNumber`, trimmed `content`, and `characterCount` the length of the
untrimmed line. -/
theorem claimC6_thm (now s : Str) (htrim : jsTrim s = s)
    (hml : 1 < (jsSplit '\n' s).length) :
    parseTextData now (vstr s)
      = varr ((jsSplit '\n' s).enum.map (fun p =>
          vobj [(js "lineNumber", vnum ((p.1 : Int) + 1)),
                (js "content", vstr (jsTrim p.2)),
                (js "characterCount", vnum (p.2.length : Int))])) := by
  simp only [parseTextData, htrim, if_pos hml]

/-- Claim C6 witness: converting `"L1\nL2"` yields exactly the two records
`\x7blineNumber:1, content:"L1", characterCount:2\x7d` and
`\x7blineNumber:2, content:"L2", characterCount:2\x7d`. -/
theorem claimC6_witness :
    jsTrim (js "L1\nL2") = js "L1\nL2"
    ∧ 1 < (jsSplit '\n' (js "L1\nL2")).length
    ∧ parseTextData (js "T") (vstr (js "L1\nL2"))
      = varr [vobj [(js "lineNumber", vnum 1), (js "content", vstr (js "L1")),
                    (js "characterCount", vnum 2)],
              vobj [(js "lineNumber", vnum 2), (js "content", vstr (js "L2")),
                    (js "characterCount", vnum 2)]] :=
  ⟨by decide, by decide,
    by exact claimC6_thm (js "T") (js "L1\nL2") (by decide) (by decide)⟩

/-- Claim C7: for every object or array value serialized to JSON, the output is
an object whose `_metadata` field is exactly `\x7bgeneratedAt, source, format\x7d`
(overwriting any caller-supplied `_metadata`), and whose every other top-level
field reads the same as in the input value. -/
theorem claimC7_thm (now : Str) (v : JSValue)
    (hv : (∃ fs, v = vobj fs) ∨ (∃ xs, v = varr xs)) :
    ∃ out, createJsonValue now v = vobj out
      ∧ lookupField out (js "_metadata") = some (metadataValue now)
      ∧ ∀ k, k ≠ js "_metadata" → lookupField out k = lookupField (enumProps v) k := by
  have hjson : createJsonValue now v
      = vobj (setKey (enumProps v) (js "_metadata") (metadataValue now)) := by
    rcases hv with ⟨fs, rfl⟩ | ⟨xs, rfl⟩ <;> rfl
  exact ⟨_, hjson, lookupField_setKey_self _ _ _,
    fun k hk => lookupField_setKey_ne _ _ _ _ hk⟩

/-- Claim C7 witness: the metadata merge at a concrete object that already has
a caller-supplied `_metadata` field and one other field. -/
theorem claimC7_witness :
    ((∃ fs, (vobj [(js "x", vnum 1), (js "_metadata", vstr (js "old"))]) = vobj fs)
      ∨ (∃ xs, (vobj [(js "x", vnum 1), (js "_metadata", vstr (js "old"))]) = varr xs))
    ∧ ∃ out,
        createJsonValue (js "T") (vobj [(js "x", vnum 1), (js "_metadata", vstr (js "old"))])
          = vobj out
        ∧ lookupField out (js "_metadata") = some (metadataValue (js "T"))
        ∧ ∀ k, k ≠ js "_metadata" →
            lookupField out k
              = lookupField (enumProps (vobj [(js "x", vnum 1), (js "_metadata", vstr (js "old"))])) k :=
  ⟨Or.inl ⟨_, rfl⟩, claimC7_thm (js "T") _ (Or.inl ⟨_, rfl⟩)⟩

theorem bytesToHex_cons (b : Nat) (bs : List Nat) :
    bytesToHex (b :: bs)
      = hexDigitChar (b % 256 / 16) :: hexDigitChar (b % 256 % 16) :: bytesToHex bs := rfl

theorem bytesToHex_length (bs : List Nat) : (bytesToHex bs).length = 2 * bs.length := by
  induction bs with
  | nil => rfl
  | cons b bs ih => simp [bytesToHex_cons, ih]; omega

theorem hexDigitChar_mem (n : Nat) : hexDigitChar n ∈ js "0123456789abcdef" := by
  by_cases h : n < 16
  · interval_cases n <;> decide
  · have h16 : (js "0123456789abcdef").length = 16 := by decide
    have hlen : (js "0123456789abcdef").length ≤ n := by omega
    rw [hexDigitChar, List.getD_eq_default _ _ hlen]
    decide

theorem bytesToHex_mem (bs : List Nat) :
    ∀ c ∈ bytesToHex bs, c ∈ js "0123456789abcdef" := by
  induction bs with
  | nil => intro c hc; cases hc
  | cons b bs ih =>
    intro c hc
    rw [bytesToHex_cons] at hc
    simp only [List.mem_cons] at hc
    rcases hc with hc | hc | hc
    · subst hc; exact hexDigitChar_mem _
    · subst hc; exact hexDigitChar_mem _
    · exact ih c hc

/-- Claim C9: a caller-provided filename containing a `.` is used verbatim
regardless of the resolved output format; a non-empty name without a `.` gets
the resolved format's extension appended; with no name, a name of the shape
`alert-<epoch millis>-<hex>.<ext>` is generated, and four random bytes give
exactly 8 lowercase hex characters. -/
theorem claimC9_thm (o : FileOptions) (ts : Nat) (rb : List Nat) :
    (∀ n, o.fileName = some n → '.' ∈ n → resolveFileName o ts rb = n)
    ∧ (∀ n, o.fileName = some n → n ≠ [] → '.' ∉ n →
        resolveFileName o ts rb = n ++ '.' :: resolveOutputFormat o)
    ∧ (o.fileName = none →
        resolveFileName o ts rb
          = js "alert-" ++ natStr ts ++ js "-" ++ bytesToHex rb
              ++ '.' :: resolveOutputFormat o)
    ∧ (rb.length = 4 →
        (bytesToHex rb).length = 8 ∧ ∀ c ∈ bytesToHex rb, c ∈ js "0123456789abcdef") := by
  refine ⟨?_, ?_, ?_, ?_⟩
  · intro n hn hdot
    have hne : n ≠ [] := by intro h; subst h; cases hdot
    simp [resolveFileName, hn, List.isEmpty_iff, hne, hdot]
  · intro n hn hne hdot
    simp [resolveFileName, hn, List.isEmpty_iff, hne, hdot]
  · intro h
    simp [resolveFileName, h, generatedFileName]
  · intro h
    exact ⟨by rw [bytesToHex_length, h], bytesToHex_mem rb⟩

/-- Claim C9 witness: `report.txt` with resolved format csv stays `report.txt`;
`report` with csv becomes `report.csv`; no name with four concrete random bytes
generates `alert-1234-00ff10ab.csv`. -/
theorem claimC9_witness :
    resolveFileName
      { fileName := some (js "report.txt"), fromFmt := some (js "json"),
        toFmt := some (js "csv") } 0 [] = js "report.txt"
    ∧ resolveFileName { fileName := some (js "report"), fileType := some (js "csv") } 0 []
        = js "report.csv"
    ∧ resolveFileName { fileName := none, fileType := some (js "csv") } 1234 [0, 255, 16, 171]
        = js "alert-1234-00ff10ab.csv" :=
  ⟨(claimC9_thm _ 0 []).1 _ rfl (by decide),
   by exact (claimC9_thm { fileName := some (js "report"), fileType := some (js "csv") } 0 []).2.1
        (js "report") rfl (by decide) (by decide),
   by exact (claimC9_thm { fileName := none, fileType := some (js "csv") } 1234 [0, 255, 16, 171]).2.2.1 rfl⟩

/-- Claim C4: option validation checks the four rules in the claimed fixed
order with the first violation winning — (1) both an explicit fileType and a
from/to tag, (2) exactly one of from/to, (3) a given tag outside
`\x7bjson, csv, txt\x7d` (failing with the error that names that tag), (4) from equal
to to — and a request violating none of them validates successfully:
`validateOptions` agrees with the rule list `specValidateOptions` transcribed
from the specification on every input. -/
theorem claimC4_thm (o : FileOptions) : validateOptions o = specValidateOptions o := by
  by_cases h1 : tagGiven o.fileType <;> by_cases h2 : tagGiven o.fromFmt <;>
    by_cases h3 : tagGiven o.toFmt <;>
    by_cases h4 : o.fileType.getD [] ∈ validFormats <;>
    by_cases h5 : o.fromFmt.getD [] ∈ validFormats <;>
    by_cases h6 : o.toFmt.getD [] ∈ validFormats <;>
    by_cases h7 : o.fromFmt.getD [] = o.toFmt.getD [] <;>
    simp [validateOptions, specValidateOptions, truthyStr_eq_true, h1, h2, h3, h4, h5, h6, h7]

/-- Claim C4 witness: the equivalence applied at a concrete option bag that
violates rule (3) with an invalid tag. -/
theorem claimC4_witness :
    validateOptions { fileType := some (js "xml") }
      = specValidateOptions { fileType := some (js "xml") }
    ∧ validateOptions { fileType := some (js "xml") } = some (.invalidFileType (js "xml")) :=
  ⟨claimC4_thm { fileType := some (js "xml") }, by decide⟩

theorem jsSplitAux_no_sep (sep : Char) (f : Str) :
    sep ∉ f → ∀ rest cur, jsSplitAux sep (f ++ rest) cur = jsSplitAux sep rest (cur ++ f) := by
  induction f with
  | nil => intro _ rest cur; simp [jsSplitAux]
  | cons c t ih =>
    intro hf rest cur
    have hc : ¬(c = sep) := fun h => hf (by simp [h])
    have ht : sep ∉ t := fun h => hf (List.mem_cons_of_mem _ h)
    rw [List.cons_append]
    simp only [jsSplitAux, if_neg hc]
    rw [ih ht rest (cur ++ [c])]
    simp

theorem jsSplit_no_sep (sep : Char) (l : Str) (h : sep ∉ l) : jsSplit sep l = [l] := by
  have h0 := jsSplitAux_no_sep sep l h [] []
  simpa [jsSplit, jsSplitAux] using h0

theorem jsSplitAux_joinWith (sep : Char) (ls : List Str) :
    ∀ (l : Str) (cur : Str), (∀ m ∈ l :: ls, sep ∉ m) →
      jsSplitAux sep (joinWith sep (l :: ls)) cur = (cur ++ l) :: ls := by
  induction ls with
  | nil =>
    intro l cur h
    have h0 : sep ∉ l := h l (by simp)
    have := jsSplitAux_no_sep sep l h0 [] cur
    simpa [joinWith, jsSplitAux] using this
  | cons l2 ls2 ih =>
    intro l cur h
    have hl : sep ∉ l := h l (by simp)
    have hjoin : joinWith sep (l :: l2 :: ls2) = l ++ sep :: joinWith sep (l2 :: ls2) := rfl
    rw [hjoin, jsSplitAux_no_sep sep l hl]
    simp only [jsSplitAux, if_pos rfl]
    rw [ih l2 [] (fun m hm => h m (List.mem_cons_of_mem _ hm))]
    simp

theorem jsSplit_joinWith (sep : Char) (ls : List Str) (hne : ls ≠ [])
    (h : ∀ m ∈ ls, sep ∉ m) : jsSplit sep (joinWith sep ls) = ls := by
  match ls, hne with
  | l :: ls2, _ =>
    rw [jsSplit, jsSplitAux_joinWith sep ls2 l [] h]
    simp

theorem parseCsvLineAux_no_special (f : Str) :
    (∀ c ∈ f, c ≠ '"' ∧ c ≠ ',') →
    ∀ rest cur, parseCsvLineAux (f ++ rest) false cur = parseCsvLineAux rest false (cur ++ f) := by
  induction f with
  | nil => intro _ rest cur; simp
  | cons c t ih =>
    intro hf rest cur
    obtain ⟨hq, hc⟩ := hf c (by simp)
    rw [List.cons_append, parseCsvLineAux_false_step c hq hc,
      ih (fun d hd => hf d (List.mem_cons_of_mem _ hd)) rest (cur ++ [c])]
    simp

theorem parseCsvLineAux_joinWith (fs : List Str) :
    ∀ (f : Str) (cur : Str), (∀ v ∈ f :: fs, ∀ c ∈ v, c ≠ '"' ∧ c ≠ ',') →
      parseCsvLineAux (joinWith ',' (f :: fs)) false cur = (cur ++ f) :: fs := by
  induction fs with
  | nil =>
    intro f cur h
    have h0 := h f (by simp)
    have := parseCsvLineAux_no_special f h0 [] cur
    simpa [joinWith, parseCsvLineAux] using this
  | cons f2 fs2 ih =>
    intro f cur h
    have h0 := h f (by simp)
    have hjoin : joinWith ',' (f :: f2 :: fs2) = f ++ ',' :: joinWith ',' (f2 :: fs2) := rfl
    rw [hjoin, parseCsvLineAux_no_special f h0, parseCsvLineAux.eq_5,
      ih f2 [] (fun v hv => h v (List.mem_cons_of_mem _ hv))]
    simp

theorem parseCsvLine_joinWith (fs : List Str) (hne : fs ≠ [])
    (h : ∀ v ∈ fs, ∀ c ∈ v, c ≠ '"' ∧ c ≠ ',') : parseCsvLine (joinWith ',' fs) = fs := by
  match fs, hne with
  | f :: fs2, _ =>
    rw [parseCsvLine, parseCsvLineAux_joinWith fs2 f [] h]
    simp

/-- Trimming `body ++ "\n"` strips exactly the final newline when the body
starts and ends with non-whitespace characters. -/
theorem jsTrim_append_newline (s : Str) (c0 : Char) (t : Str) (hs : s = c0 :: t)
    (h0 : ¬c0.isWhitespace) (cl : Char) (hl : s.getLast? = some cl)
    (h1 : ¬cl.isWhitespace) : jsTrim (s ++ ['\n']) = s := by
  obtain ⟨l', hdecomp⟩ := List.getLast?_eq_some_iff.mp hl
  have lead : (s ++ ['\n']).dropWhile Char.isWhitespace = s ++ ['\n'] := by
    rw [hs, List.cons_append, List.dropWhile_cons_of_neg h0]
  rw [jsTrim, lead, hdecomp]
  have hrev : ((l' ++ [cl]) ++ ['\n']).reverse = '\n' :: cl :: l'.reverse := by
    simp
  rw [hrev, List.dropWhile_cons_of_pos (by decide), List.dropWhile_cons_of_neg h1]
  simp

theorem joinWith_cons_of_ne_nil (x : Char) (l : Str) (ls : List Str) (h : ls ≠ []) :
    joinWith x (l :: ls) = l ++ x :: joinWith x ls := by
  cases ls with
  | nil => exact absurd rfl h
  | cons a t => rfl

theorem joinWith_cons_exists (x : Char) (l : Str) (ls : List Str) :
    ∃ u, joinWith x (l :: ls) = l ++ u := by
  cases ls with
  | nil => exact ⟨[], by simp [joinWith]⟩
  | cons a t => exact ⟨x :: joinWith x (a :: t), rfl⟩

theorem joinWith_concat_exists (x : Char) :
    ∀ (ls : List Str) (l : Str), ∃ u, joinWith x (ls ++ [l]) = u ++ l
  | [], l => ⟨[], by simp [joinWith]⟩
  | a :: ls', l => by
      obtain ⟨u, hu⟩ := joinWith_concat_exists x ls' l
      refine ⟨a ++ x :: u, ?_⟩
      rw [List.cons_append, joinWith_cons_of_ne_nil x a (ls' ++ [l]) (by simp), hu]
      simp

theorem mem_joinWith (x c : Char) :
    ∀ (ls : List Str), c ∈ joinWith x ls → c = x ∨ ∃ l ∈ ls, c ∈ l
  | [], h => absurd h (List.not_mem_nil c)
  | [l], h => Or.inr ⟨l, by simp, h⟩
  | l :: l2 :: ls2, h => by
      have hj : joinWith x (l :: l2 :: ls2) = l ++ x :: joinWith x (l2 :: ls2) := rfl
      rw [hj] at h
      rcases List.mem_append.mp h with h | h
      · exact Or.inr ⟨l, by simp, h⟩
      · rcases List.mem_cons.mp h with h | h
        · exact Or.inl h
        · rcases mem_joinWith x c (l2 :: ls2) h with h | ⟨m, hm, hcm⟩
          · exact Or.inl h
          · exact Or.inr ⟨m, List.mem_cons_of_mem _ hm, hcm⟩

theorem flatten_map_newline :
    ∀ (ls : List Str), ls ≠ [] →
      (ls.map (fun l => l ++ ['\n'])).flatten = joinWith '\n' ls ++ ['\n']
  | [], h => absurd rfl h
  | [l], _ => by simp [joinWith]
  | l :: l2 :: ls2, _ => by
      have ih := flatten_map_newline (l2 :: ls2) (by simp)
      simp only [List.map_cons, List.flatten_cons] at ih ⊢
      rw [ih, joinWith_cons_of_ne_nil '\n' l (l2 :: ls2) (by simp)]
      simp

theorem setKey_not_mem (fs : List (Str × JSValue)) (k : Str) (v : JSValue)
    (h : k ∉ fs.map Prod.fst) : setKey fs k v = fs ++ [(k, v)] := by
  induction fs with
  | nil => rfl
  | cons p rest ih =>
    obtain ⟨k0, v0⟩ := p
    simp only [List.map_cons, List.mem_cons, not_or] at h
    obtain ⟨hk, hrest⟩ := h
    have hk0 : ¬(k0 = k) := fun he => hk he.symm
    simp only [setKey, if_neg hk0, List.cons_append]
    rw [ih hrest]

theorem buildRow_zip :
    ∀ (hs vs : List Str) (acc : List (Str × JSValue)),
      hs.Nodup → hs.length = vs.length → (∀ h ∈ hs, h ∉ acc.map Prod.fst) →
      buildRow acc hs vs = acc ++ hs.zip (vs.map vstr)
  | [], vs, acc, _, _, _ => by simp [buildRow]
  | h :: hs', vs, acc, hnd, hlen, hfresh => by
      cases vs with
      | nil => simp at hlen
      | cons v vs' =>
        have hn := List.nodup_cons.mp hnd
        have hstep : buildRow acc (h :: hs') (v :: vs')
            = buildRow (setKey acc h (vstr v)) hs' vs' := rfl
        rw [hstep, setKey_not_mem acc h (vstr v) (hfresh h (by simp))]
        rw [buildRow_zip hs' vs' (acc ++ [(h, vstr v)]) hn.2 (by simpa using hlen)
          (fun h' hm => by
            intro hmem
            rw [List.map_append] at hmem
            rcases List.mem_append.mp hmem with hmem | hmem
            · exact hfresh h' (List.mem_cons_of_mem _ hm) hmem
            · simp only [List.map_cons, List.map_nil, List.mem_singleton] at hmem
              subst hmem
              exact hn.1 hm)]
        simp [List.zip_cons_cons]

theorem flattenFields_zip :
    ∀ (hs vs : List Str), hs.length = vs.length →
      flattenFields (hs.zip (vs.map vstr)) [] = hs
  | [], vs, _ => by simp [flattenFields]
  | h :: hs', vs, hlen => by
      cases vs with
      | nil => simp at hlen
      | cons v vs' =>
        have hz : (h :: hs').zip ((v :: vs').map vstr)
            = (h, vstr v) :: hs'.zip (vs'.map vstr) := rfl
        rw [hz]
        simp only [flattenFields, isNestedObject]
        rw [flattenFields_zip hs' vs' (by simpa using hlen)]
        simp [mkKey]

theorem needsEscape_eq_false (v : Str)
    (h : ∀ c ∈ v, c ≠ ',' ∧ c ≠ '"' ∧ c ≠ '\n') : needsEscape v = false := by
  have h1 : ¬(',' ∈ v) := fun hc => (h ',' hc).1 rfl
  have h2 : ¬('"' ∈ v) := fun hc => (h '"' hc).2.1 rfl
  have h3 : ¬('\n' ∈ v) := fun hc => (h '\n' hc).2.2 rfl
  simp [needsEscape, h1, h2, h3]

theorem csvCellOfValue_vstr (v : Str) (h : needsEscape v = false) :
    csvCellOfValue (some (vstr v)) = v := by
  simp [csvCellOfValue, typeofObject, jsToString, csvCell, h]

theorem getNestedValue_no_dot (fs : List (Str × JSValue)) (k : Str) (hdot : '.' ∉ k) :
    getNestedValue (vobj fs) k = lookupField fs k := by
  rw [getNestedValue, jsSplit_no_sep '.' k hdot]
  rfl

theorem map_cell_zip :
    ∀ (hs vs : List Str), hs.Nodup → hs.length = vs.length →
      (∀ v ∈ vs, needsEscape v = false) →
      hs.map (fun h => csvCellOfValue (lookupField (hs.zip (vs.map vstr)) h)) = vs
  | [], [], _, _, _ => rfl
  | [], _ :: _, _, hlen, _ => by simp at hlen
  | _ :: _, [], _, hlen, _ => by simp at hlen
  | h :: hs', v :: vs', hnd, hlen, hcl => by
      have hn := List.nodup_cons.mp hnd
      have hz : (h :: hs').zip ((v :: vs').map vstr)
          = (h, vstr v) :: hs'.zip (vs'.map vstr) := rfl
      rw [hz, List.map_cons]
      have hhead : lookupField ((h, vstr v) :: hs'.zip (vs'.map vstr)) h = some (vstr v) := by
        simp [lookupField]
      rw [hhead, csvCellOfValue_vstr v (hcl v (by simp))]
      have hcongr : ∀ h' ∈ hs',
          csvCellOfValue (lookupField ((h, vstr v) :: hs'.zip (vs'.map vstr)) h')
            = csvCellOfValue (lookupField (hs'.zip (vs'.map vstr)) h') := by
        intro h' hm
        have hne : ¬(h = h') := fun he => hn.1 (he ▸ hm)
        simp [lookupField, hne]
      rw [List.map_congr_left hcongr,
        map_cell_zip hs' vs' hn.2 (by simpa using hlen)
          (fun v' hv => hcl v' (List.mem_cons_of_mem _ hv))]

theorem objRowLine_zip (hs vs : List Str) (hnd : hs.Nodup) (hlen : hs.length = vs.length)
    (hdot : ∀ h ∈ hs, '.' ∉ h) (hcl : ∀ v ∈ vs, needsEscape v = false) :
    objRowLine hs (vobj (hs.zip (vs.map vstr))) = joinWith ',' vs := by
  rw [objRowLine]
  have hcongr : ∀ h ∈ hs,
      csvCellOfValue (getNestedValue (vobj (hs.zip (vs.map vstr))) h)
        = csvCellOfValue (lookupField (hs.zip (vs.map vstr)) h) := by
    intro h hm
    rw [getNestedValue_no_dot _ h (hdot h hm)]
  rw [List.map_congr_left hcongr, map_cell_zip hs vs hnd hlen hcl]

theorem foldl_insertDedup_fresh :
    ∀ (ks acc : List Str), ks.Nodup → (∀ k ∈ ks, k ∉ acc) →
      ks.foldl insertDedup acc = acc ++ ks
  | [], acc, _, _ => by simp
  | k :: ks', acc, hnd, hf => by
      have hn := List.nodup_cons.mp hnd
      have h1 : insertDedup acc k = acc ++ [k] := by simp [insertDedup, hf k (by simp)]
      simp only [List.foldl_cons, h1]
      rw [foldl_insertDedup_fresh ks' (acc ++ [k]) hn.2 (fun k' hm => by
        intro hmem
        rcases List.mem_append.mp hmem with hmem | hmem
        · exact hf k' (List.mem_cons_of_mem _ hm) hmem
        · have : k' = k := List.mem_singleton.mp hmem
          subst this
          exact hn.1 hm)]
      simp

theorem foldl_insertDedup_subset :
    ∀ (ks acc : List Str), (∀ k ∈ ks, k ∈ acc) → ks.foldl insertDedup acc = acc
  | [], _, _ => rfl
  | k :: ks', acc, h => by
      have h1 : insertDedup acc k = acc := by simp [insertDedup, h k (by simp)]
      simp only [List.foldl_cons, h1]
      exact foldl_insertDedup_subset ks' acc (fun k' hm => h k' (List.mem_cons_of_mem _ hm))

theorem extractHeaders_const (hs : List Str) (hnd : hs.Nodup) :
    ∀ (objs : List JSValue), objs ≠ [] → (∀ o ∈ objs, flattenObject o [] = hs) →
      extractHeadersFromObjects objs = hs := by
  have haux : ∀ (objs : List JSValue), (∀ o ∈ objs, flattenObject o [] = hs) →
      objs.foldl (fun acc obj => (flattenObject obj []).foldl insertDedup acc) hs = hs := by
    intro objs
    induction objs with
    | nil => intro _; rfl
    | cons o os ih =>
      intro h
      simp only [List.foldl_cons]
      rw [h o (by simp), foldl_insertDedup_subset hs hs (fun k hk => hk)]
      exact ih (fun o' hm => h o' (List.mem_cons_of_mem _ hm))
  intro objs hne h
  match objs, hne with
  | o :: os, _ =>
    rw [extractHeadersFromObjects]
    simp only [List.foldl_cons]
    rw [h o (by simp), foldl_insertDedup_fresh hs [] hnd (by simp)]
    simp only [List.nil_append]
    exact haux os (fun o' hm => h o' (List.mem_cons_of_mem _ hm))

/-- Claim C3 (counterexample): CSV parse/serialize is not the identity on every
escape-free CSV string — a header containing a dot breaks the round trip, since
re-serialization resolves headers by dot-path lookup. -/
theorem claimC3_counterexample :
    createCsvFile (varr (parseCsvData (js "a.b\n1\n") none)) none
      ≠ .ok (js "a.b\n1\n") := by decide

/-- Claim C3 (amended): for every CSV string assembled from a header line of
pairwise-distinct, non-empty, dot-free headers and at least one data row, each
line comma-joining fields free of commas, quotes and whitespace characters,
every data row as long as the header list, the last field of the last row
non-empty, and a terminating newline — parsing with auto-detected headers and
re-serializing with auto-derived headers reproduces the string exactly. -/
theorem claimC3_thm (hs : List Str) (rs : List (List Str)) (r0 : List Str) (f : Str)
    (hhs : hs ≠ []) (hnd : hs.Nodup)
    (hh : ∀ h ∈ hs, h ≠ [] ∧ ∀ c ∈ h, c ≠ ',' ∧ c ≠ '"' ∧ c ≠ '.' ∧ ¬c.isWhitespace)
    (hr : ∀ r ∈ rs ++ [r0 ++ [f]], r.length = hs.length ∧
            ∀ v ∈ r, ∀ c ∈ v, c ≠ ',' ∧ c ≠ '"' ∧ ¬c.isWhitespace)
    (hf : f ≠ []) :
    createCsvFile
        (varr (parseCsvData
          ((((hs :: (rs ++ [r0 ++ [f]])).map (joinWith ',')).map (fun l => l ++ ['\n'])).flatten)
          none))
        none
      = .ok ((((hs :: (rs ++ [r0 ++ [f]])).map (joinWith ',')).map (fun l => l ++ ['\n'])).flatten) := by
  set rows := rs ++ [r0 ++ [f]] with hrowsdef
  set lines := (hs :: rows).map (joinWith ',') with hlinesdef
  set s := (lines.map (fun l => l ++ ['\n'])).flatten with hsdef
  have hrowsne : rows ≠ [] := by rw [hrowsdef]; simp
  have hlinesne : lines ≠ [] := by rw [hlinesdef]; simp
  have hlines_cons : lines = joinWith ',' hs :: rows.map (joinWith ',') := by
    rw [hlinesdef]; simp
  have hhc : ∀ h ∈ hs, ∀ c ∈ h, c ≠ '"' ∧ c ≠ ',' :=
    fun h hm c hc => ⟨((hh h hm).2 c hc).2.1, ((hh h hm).2 c hc).1⟩
  have hhdot : ∀ h ∈ hs, '.' ∉ h := fun h hm hcm => ((hh h hm).2 '.' hcm).2.2.1 rfl
  have hhnws : ∀ h ∈ hs, ∀ c ∈ h, ¬c.isWhitespace := fun h hm c hc => ((hh h hm).2 c hc).2.2.2
  have hrlen : ∀ r ∈ rows, r.length = hs.length := fun r hm => (hr r hm).1
  have hrcl : ∀ r ∈ rows, ∀ v ∈ r, ∀ c ∈ v, c ≠ ',' ∧ c ≠ '"' ∧ ¬c.isWhitespace :=
    fun r hm => (hr r hm).2
  have hnol : ∀ l ∈ lines, '\n' ∉ l := by
    intro l hl hnl
    rw [hlinesdef] at hl
    obtain ⟨fields, hfm, rfl⟩ := List.mem_map.mp hl
    rcases mem_joinWith ',' '\n' fields hnl with he | ⟨v, hv, hcv⟩
    · exact absurd he (by decide)
    · rcases List.mem_cons.mp hfm with rfl | hfm'
      · exact (hhnws v hv '\n' hcv) (by decide)
      · exact ((hrcl fields hfm' v hv '\n' hcv).2.2) (by decide)
  have hs_eq : s = joinWith '\n' lines ++ ['\n'] := by
    rw [hsdef]; exact flatten_map_newline lines hlinesne
  obtain ⟨h0, hs', hhs_cons⟩ : ∃ h0 hs', hs = h0 :: hs' := by
    cases hq : hs with
    | nil => exact absurd hq hhs
    | cons a t => exact ⟨a, t, rfl⟩
  obtain ⟨c0, h0t, hh0⟩ : ∃ c0 h0t, h0 = c0 :: h0t := by
    have h1 := (hh h0 (by rw [hhs_cons]; simp)).1
    cases hq : h0 with
    | nil => exact absurd hq h1
    | cons a t => exact ⟨a, t, rfl⟩
  have hc0 : ¬c0.isWhitespace :=
    hhnws h0 (by rw [hhs_cons]; simp) c0 (by rw [hh0]; simp)
  have hbody_head : ∃ t, joinWith '\n' lines = c0 :: t := by
    obtain ⟨u1, hu1⟩ := joinWith_cons_exists '\n' (joinWith ',' hs) (rows.map (joinWith ','))
    obtain ⟨u2, hu2⟩ := joinWith_cons_exists ',' h0 hs'
    refine ⟨(h0t ++ u2) ++ u1, ?_⟩
    rw [hlines_cons, hu1]
    rw [hhs_cons, hu2, hh0]
    simp
  have hbody_last : ∃ cl, (joinWith '\n' lines).getLast? = some cl ∧ ¬cl.isWhitespace := by
    obtain ⟨f', cf, hfd⟩ : ∃ f' cf, f = f' ++ [cf] := by
      rcases List.eq_nil_or_concat f with h | ⟨l', a, h⟩
      · exact absurd h hf
      · exact ⟨l', a, by rw [h, List.concat_eq_append]⟩
    have hcf_mem : cf ∈ f := by rw [hfd]; simp
    have hlast_mem : (r0 ++ [f]) ∈ rows := by rw [hrowsdef]; simp
    have hcf : ¬cf.isWhitespace := (hrcl _ hlast_mem f (by simp) cf hcf_mem).2.2
    have hlines_snoc : lines = (joinWith ',' hs :: rs.map (joinWith ','))
        ++ [joinWith ',' (r0 ++ [f])] := by
      rw [hlines_cons, hrowsdef]; simp
    obtain ⟨u, hu⟩ := joinWith_concat_exists '\n'
        (joinWith ',' hs :: rs.map (joinWith ',')) (joinWith ',' (r0 ++ [f]))
    obtain ⟨u', hu'⟩ := joinWith_concat_exists ',' r0 f
    refine ⟨cf, ?_, hcf⟩
    rw [hlines_snoc, hu, hu', hfd]
    rw [show u ++ ((u' ++ (f' ++ [cf]))) = (u ++ (u' ++ f')) ++ [cf] by simp]
    exact List.getLast?_concat _
  have htrim : jsTrim s = joinWith '\n' lines := by
    obtain ⟨t, hbh⟩ := hbody_head
    obtain ⟨cl, hbl, hclw⟩ := hbody_last
    rw [hs_eq]
    exact jsTrim_append_newline (joinWith '\n' lines) c0 t hbh hc0 cl hbl hclw
  have hsplit : jsSplit '\n' (jsTrim s) = lines := by
    rw [htrim]
    exact jsSplit_joinWith '\n' lines hlinesne hnol
  have hparse : parseCsvData s none = rows.map (fun r => vobj (hs.zip (r.map vstr))) := by
    simp only [parseCsvData]
    rw [hsplit, hlines_cons]
    rw [if_neg (by simp)]
    show List.map
        (fun line => vobj (buildRow [] (parseCsvLine (joinWith ',' hs)) (parseCsvLine line)))
        (List.map (joinWith ',') rows)
      = List.map (fun r => vobj (hs.zip (List.map vstr r))) rows
    rw [parseCsvLine_joinWith hs hhs hhc, List.map_map]
    apply List.map_congr_left
    intro r hmr
    have hrne : r ≠ [] := by
      intro he
      have hl0 := hrlen r hmr
      rw [he] at hl0
      exact hhs (List.length_eq_zero.mp hl0.symm)
    show vobj (buildRow [] hs (parseCsvLine (joinWith ',' r))) = vobj (hs.zip (r.map vstr))
    rw [parseCsvLine_joinWith r hrne
      (fun v hv c hc => ⟨(hrcl r hmr v hv c hc).2.1, (hrcl r hmr v hv c hc).1⟩)]
    rw [buildRow_zip hs r [] hnd (hrlen r hmr).symm (by simp)]
    simp
  rw [hparse]
  obtain ⟨a, l, hrw⟩ := List.exists_cons_of_ne_nil hrowsne
  rw [hrw]
  simp only [List.map_cons]
  simp only [createCsvFile, isObjectNotArray]
  rw [if_true]
  have hflat : ∀ o ∈ (vobj (hs.zip (a.map vstr)) :: (l.map (fun r => vobj (hs.zip (r.map vstr))))),
      flattenObject o [] = hs := by
    intro o ho
    have hex : ∃ r ∈ rows, o = vobj (hs.zip (r.map vstr)) := by
      rcases List.mem_cons.mp ho with rfl | hm
      · exact ⟨a, by rw [hrw]; simp, rfl⟩
      · obtain ⟨r, hrm, rfl⟩ := List.mem_map.mp hm
        exact ⟨r, by rw [hrw]; exact List.mem_cons_of_mem _ hrm, rfl⟩
    obtain ⟨r, hrm, rfl⟩ := hex
    show flattenFields (hs.zip (r.map vstr)) [] = hs
    exact flattenFields_zip hs r (hrlen r hrm).symm
  rw [extractHeaders_const hs hnd _ (by simp) hflat]
  have hrowlines :
      ((vobj (hs.zip (a.map vstr)) :: (l.map (fun r => vobj (hs.zip (r.map vstr))))).map
          (fun it => objRowLine hs it ++ ['\n']))
        = (a :: l).map (fun r => joinWith ',' r ++ ['\n']) := by
    rw [show (vobj (hs.zip (a.map vstr)) :: (l.map (fun r => vobj (hs.zip (r.map vstr)))))
        = (a :: l).map (fun r => vobj (hs.zip (r.map vstr))) from by simp]
    rw [List.map_map]
    apply List.map_congr_left
    intro r hm
    have hrm : r ∈ rows := by rw [hrw]; exact hm
    show objRowLine hs (vobj (hs.zip (r.map vstr))) ++ ['\n'] = joinWith ',' r ++ ['\n']
    rw [objRowLine_zip hs r hnd (hrlen r hrm).symm hhdot
      (fun v hv => needsEscape_eq_false v (fun c hc =>
        ⟨(hrcl r hrm v hv c hc).1, (hrcl r hrm v hv c hc).2.1,
          fun he => (hrcl r hrm v hv c hc).2.2 (by rw [he]; decide)⟩))]
  rw [hrowlines]
  rw [hsdef, hlines_cons, hrw]
  simp only [List.map_cons, List.flatten_cons, List.map_map, List.append_assoc,
    List.singleton_append]
  rfl

/-- Claim C3 witness: the round trip at the concrete table with headers `a,b`
and rows `1,2` and `x,y`. -/
theorem claimC3_witness :
    ([js "a", js "b"] : List Str) ≠ [] ∧ ([js "a", js "b"] : List Str).Nodup
    ∧ createCsvFile (varr (parseCsvData (js "a,b\n1,2\nx,y\n") none)) none
        = .ok (js "a,b\n1,2\nx,y\n") :=
  ⟨by decide, by decide, by
    exact claimC3_thm [js "a", js "b"] [[js "1", js "2"]] [js "x"] (js "y")
      (by decide) (by decide) (by decide) (by decide) (by decide)⟩
